import Mathlib

/-!
Verification of the DALI CPU `BoxEncoder` (bounding-box anchor-encoding)
component, `dali/pipeline/operators/detection/box_encoder.h`.

The header declares the interface (constructor validation, `CalculateIous`,
`MatchBoxesWithAnchors`, `FindBestBoxForAnchor`, `WriteMatchesToOutput`,
`WriteAnchorsToOutput`, `ReadBoxesFromInput`); the function bodies are not
part of the excerpt, so they are modelled from the specification document
(sections 3, 4.1 - 4.4 and 7).  Floating-point coordinates are embedded as
rationals; the configured `criteria` threshold is embedded as a tagged value
(`Flt`) so that the constructor's comparison semantics for NaN are captured.
-/

namespace DaliBoxEncoder

/-- Modelled from the spec (section 3, `BoundingBox` body missing from the
excerpt): a box is four ordered coordinates (left, top, right, bottom). -/
structure BoundingBox where
  l : ℚ
  t : ℚ
  r : ℚ
  b : ℚ
deriving DecidableEq

instance : Inhabited BoundingBox := ⟨⟨0, 0, 0, 0⟩⟩

/-- `BoundingBox::kSize`: four coordinates per box. -/
def BoundingBox.kSize : ℕ := 4

/-- Modelled from the spec: signed area of a box, `(right - left) * (bottom - top)`. -/
def BoundingBox.area (x : BoundingBox) : ℚ := (x.r - x.l) * (x.b - x.t)

/-- Modelled from the spec (section 4.2, `IntersectionOverUnion` body missing
from the excerpt): intersection is the clamped overlap of the coordinate
ranges on each axis; if either axis overlap is non-positive the intersection
area is 0. -/
def BoundingBox.interArea (x y : BoundingBox) : ℚ :=
  let iw := min x.r y.r - max x.l y.l
  let ih := min x.b y.b - max x.t y.t
  if iw ≤ 0 ∨ ih ≤ 0 then 0 else iw * ih

/-- Modelled from the spec (section 4.2): IoU is
`intersection / (areaA + areaB - intersection)`, and 0 when the union area
is 0. -/
def BoundingBox.iou (x y : BoundingBox) : ℚ :=
  let inter := BoundingBox.interArea x y
  let uni := x.area + y.area - inter
  if uni = 0 then 0 else inter / uni

/-- Modelled from the spec (section 4.2, `CalculateIousForBox` body missing
from the excerpt): the row of the overlap matrix for one ground-truth box:
its IoU against every anchor, in anchor order. -/
def calculateIousForBox (anchors : List BoundingBox) (g : BoundingBox) : List ℚ :=
  anchors.map (BoundingBox.iou g)

/-- Modelled from the spec (section 3, `CalculateIous` body missing from the
excerpt): the full overlap matrix, one row per ground-truth box. -/
def calculateIous (anchors boxes : List BoundingBox) : List (List ℚ) :=
  boxes.map (calculateIousForBox anchors)

/-- Modelled from the spec (section 4.3 step 1, `MatchBoxesWithAnchors` body
missing from the excerpt): the anchor with the highest IoU against the
ground-truth box `g`, ties broken by lowest anchor index; 0 when there are no
anchors. -/
def bestAnchorForBox (anchors : List BoundingBox) (g : BoundingBox) : ℕ :=
  ((List.range anchors.length).argmax
    (fun i => BoundingBox.iou g (anchors.getD i default))).getD 0

/-- Modelled from the spec (section 4.3 step 1): one binding action of step 1,
writing ground-truth index `j` into the assignment slot of its best anchor. -/
def step1Upd (anchors boxes : List BoundingBox) (acc : List (Option ℕ)) (j : ℕ) :
    List (Option ℕ) :=
  acc.set (bestAnchorForBox anchors (boxes.getD j default)) (some j)

/-- Modelled from the spec (section 4.3 steps 1-2): processing the ground-truth
boxes in input order, bind each box's best anchor to it.  The result maps each
anchor index to `some` ground-truth index or `none` (background). -/
def step1Assign (anchors boxes : List BoundingBox) : List (Option ℕ) :=
  (List.range boxes.length).foldl (step1Upd anchors boxes)
    (List.replicate anchors.length none)

/-- Modelled from the spec (section 4.3 step 3, `FindBestBoxForAnchor` body
missing from the excerpt): the ground-truth box with the highest IoU against
anchor `a`, ties broken by lowest box index; 0 when there are no boxes. -/
def findBestBoxForAnchor (anchors boxes : List BoundingBox) (a : ℕ) : ℕ :=
  ((List.range boxes.length).argmax
    (fun j => BoundingBox.iou (boxes.getD j default) (anchors.getD a default))).getD 0

/-- Modelled from the spec (section 4.3, `MatchBoxesWithAnchors` body missing
from the excerpt): the full two-phase matching.  Step-1 bindings are kept;
every anchor left unbound is bound to its best ground-truth box when that IoU
meets `criteria`, and stays background otherwise. -/
def matchBoxesWithAnchors (anchors boxes : List BoundingBox) (criteria : ℚ) :
    List (Option ℕ) :=
  (List.range anchors.length).map fun a =>
    match (step1Assign anchors boxes).getD a none with
    | some j => some j
    | none =>
      if boxes.isEmpty then none
      else if criteria ≤
          BoundingBox.iou (boxes.getD (findBestBoxForAnchor anchors boxes a) default)
            (anchors.getD a default) then
        some (findBestBoxForAnchor anchors boxes a)
      else none

/-- Modelled from the spec (section 4.4, `WriteMatchesToOutput` body missing
from the excerpt): per anchor slot, a matched anchor gets the bound box's raw
coordinates and its label; an unmatched anchor gets its own coordinates and
label 0. -/
def writeMatchesToOutput (assign : List (Option ℕ)) (boxes : List BoundingBox)
    (labels : List ℤ) (anchors : List BoundingBox) : List BoundingBox × List ℤ :=
  ((List.range anchors.length).map fun a =>
      match assign.getD a none with
      | some j => boxes.getD j default
      | none => anchors.getD a default,
    (List.range anchors.length).map fun a =>
      match assign.getD a none with
      | some j => labels.getD j 0
      | none => 0)

/-- Modelled from the spec (sections 4.4 and 7, `WriteAnchorsToOutput` body
missing from the excerpt): the all-background output used when there are no
ground-truth boxes: every slot carries the anchor's own coordinates and
label 0. -/
def writeAnchorsToOutput (anchors : List BoundingBox) : List BoundingBox × List ℤ :=
  (anchors, List.replicate anchors.length 0)

/-- Modelled from the spec (sections 2 and 7, `RunImpl` body missing from the
excerpt): the per-sample run: with no ground-truth boxes, write the
all-background output; otherwise match and encode. -/
def runEncoder (anchors : List BoundingBox) (criteria : ℚ) (boxes : List BoundingBox)
    (labels : List ℤ) : List BoundingBox × List ℤ :=
  if boxes.isEmpty then writeAnchorsToOutput anchors
  else writeMatchesToOutput (matchBoxesWithAnchors anchors boxes criteria) boxes labels anchors

/-- Checks the spec's step-1 coverage property on one input: every ground-truth
index appears in the step-1 assignment. -/
def coveredAfterStep1 (anchors boxes : List BoundingBox) : Bool :=
  (List.range boxes.length).all fun j => (step1Assign anchors boxes).contains (some j)

/-- A float value as the constructor sees it: either NaN or an actual rational
value.  Comparisons against NaN are false, as in IEEE semantics. -/
inductive Flt
  | nan : Flt
  | val : ℚ → Flt
deriving DecidableEq

/-- The comparison `x >= y` as evaluated by `DALI_ENFORCE(criteria_ >= 0.f)`:
false whenever either side is NaN. -/
def fge (x y : Flt) : Bool :=
  match x, y with
  | Flt.val a, Flt.val q => decide (q ≤ a)
  | _, _ => false

/-- The comparison `x <= y` as evaluated by `DALI_ENFORCE(criteria_ <= 1.f)`:
false whenever either side is NaN. -/
def fle (x y : Flt) : Bool :=
  match x, y with
  | Flt.val a, Flt.val q => decide (a ≤ q)
  | _, _ => false

/-- The state a successfully constructed `BoxEncoder<CPUBackend>` holds: the
validated `criteria_` and the anchor boxes `anchors_`. -/
structure EncoderCfg where
  criteria : ℚ
  anchors : List BoundingBox
deriving DecidableEq

/-- Modelled from the spec (section 4.1, `ReadBoxesFromInput` body missing
from the excerpt): one box per 4 consecutive values of the flat list, in input
order. -/
def readBoxesFromInput (vals : List ℚ) (numBoxes : ℕ) : List BoundingBox :=
  (List.range numBoxes).map fun k =>
    ⟨vals.getD (4 * k) 0, vals.getD (4 * k + 1) 0,
     vals.getD (4 * k + 2) 0, vals.getD (4 * k + 3) 0⟩

/-- The `BoxEncoder<CPUBackend>` constructor (box_encoder.h lines 33-49):
enforce `criteria >= 0`, then `criteria <= 1`, then that the flat anchor list
has length divisible by `BoundingBox::kSize`; on success read the anchors.
`none` models a thrown `ConfigurationError`. -/
def boxEncoderInit (criteria : Flt) (vals : List ℚ) : Option EncoderCfg :=
  if fge criteria (Flt.val 0) = false then none
  else if fle criteria (Flt.val 1) = false then none
  else if vals.length % BoundingBox.kSize ≠ 0 then none
  else
    match criteria with
    | Flt.val c => some ⟨c, readBoxesFromInput vals (vals.length / BoundingBox.kSize)⟩
    | Flt.nan => none

/-- Anchor set of the step-1 coverage counterexample: a single anchor. -/
def cexAnchors : List BoundingBox := [⟨0, 0, 1, 1⟩]

/-- Ground-truth set of the step-1 coverage counterexample: two boxes whose
best anchor is the same single anchor. -/
def cexBoxes : List BoundingBox := [⟨0, 0, 1, 1⟩, ⟨0, 0, 1, 1⟩]

theorem interArea_nonneg (x y : BoundingBox) : 0 ≤ BoundingBox.interArea x y := by
  unfold BoundingBox.interArea
  dsimp only
  split
  · exact le_refl 0
  · rename_i h
    push_neg at h
    exact le_of_lt (mul_pos h.1 h.2)

theorem interArea_le_area_left (x y : BoundingBox)
    (hpos : 0 < BoundingBox.interArea x y) :
    BoundingBox.interArea x y ≤ x.area := by
  unfold BoundingBox.interArea at hpos ⊢
  dsimp only at hpos ⊢
  split
  · rename_i h
    rw [if_pos h] at hpos
    exact absurd hpos (lt_irrefl 0)
  · rename_i h
    rw [if_neg h] at hpos
    push_neg at h
    obtain ⟨hw', hh'⟩ := h
    have h1 : min x.r y.r - max x.l y.l ≤ x.r - x.l := by
      have := min_le_left x.r y.r
      have := le_max_left x.l y.l
      linarith
    have h2 : min x.b y.b - max x.t y.t ≤ x.b - x.t := by
      have := min_le_left x.b y.b
      have := le_max_left x.t y.t
      linarith
    unfold BoundingBox.area
    nlinarith

theorem interArea_le_area_right (x y : BoundingBox)
    (hpos : 0 < BoundingBox.interArea x y) :
    BoundingBox.interArea x y ≤ y.area := by
  unfold BoundingBox.interArea at hpos ⊢
  dsimp only at hpos ⊢
  split
  · rename_i h
    rw [if_pos h] at hpos
    exact absurd hpos (lt_irrefl 0)
  · rename_i h
    rw [if_neg h] at hpos
    push_neg at h
    obtain ⟨hw', hh'⟩ := h
    have h1 : min x.r y.r - max x.l y.l ≤ y.r - y.l := by
      have := min_le_right x.r y.r
      have := le_max_right x.l y.l
      linarith
    have h2 : min x.b y.b - max x.t y.t ≤ y.b - y.t := by
      have := min_le_right x.b y.b
      have := le_max_right x.t y.t
      linarith
    unfold BoundingBox.area
    nlinarith

theorem iou_nonneg (x y : BoundingBox) : 0 ≤ BoundingBox.iou x y := by
  unfold BoundingBox.iou
  dsimp only
  split
  · exact le_refl 0
  · rename_i huni
    rcases lt_or_eq_of_le (interArea_nonneg x y) with hpos | hzero
    · have hle1 := interArea_le_area_left x y hpos
      have hle2 := interArea_le_area_right x y hpos
      have huni' : 0 < x.area + y.area - BoundingBox.interArea x y := by linarith
      exact le_of_lt (div_pos hpos huni')
    · rw [← hzero, zero_div]

theorem iou_le_one (x y : BoundingBox) : BoundingBox.iou x y ≤ 1 := by
  unfold BoundingBox.iou
  dsimp only
  split
  · exact zero_le_one
  · rename_i huni
    rcases lt_or_eq_of_le (interArea_nonneg x y) with hpos | hzero
    · have hle1 := interArea_le_area_left x y hpos
      have hle2 := interArea_le_area_right x y hpos
      have huni' : 0 < x.area + y.area - BoundingBox.interArea x y := by linarith
      rw [div_le_one huni']
      linarith
    · rw [← hzero, zero_div]
      exact zero_le_one

theorem indexOf_range {i n : ℕ} (h : i < n) : (List.range n).indexOf i = i := by
  have hmem : i ∈ List.range n := List.mem_range.mpr h
  have hlt : (List.range n).indexOf i < (List.range n).length :=
    List.indexOf_lt_length.mpr hmem
  have hget := List.indexOf_get (a := i) (l := List.range n) hlt
  rw [List.get_eq_getElem, List.getElem_range] at hget
  exact hget

theorem argmaxIdx_spec (f : ℕ → ℚ) (n : ℕ) (hn : n ≠ 0) :
    ((List.range n).argmax f).getD 0 < n
    ∧ (∀ i < n, f i ≤ f (((List.range n).argmax f).getD 0))
    ∧ ∀ i < ((List.range n).argmax f).getD 0, f i < f (((List.range n).argmax f).getD 0) := by
  have hne : List.range n ≠ [] := by
    simpa [List.range_eq_nil] using hn
  obtain ⟨m, hm⟩ : ∃ m, (List.range n).argmax f = some m := by
    cases harg : (List.range n).argmax f with
    | none => exact absurd (List.argmax_eq_none.mp harg) hne
    | some m => exact ⟨m, rfl⟩
  obtain ⟨hmem, hmax, htie⟩ := List.argmax_eq_some_iff.mp hm
  have hmlt : m < n := List.mem_range.mp hmem
  rw [hm]
  simp only [Option.getD_some]
  refine ⟨hmlt, ?_, ?_⟩
  · intro i hi
    exact hmax i (List.mem_range.mpr hi)
  · intro i hi
    have hin : i < n := lt_trans hi hmlt
    have hle : f i ≤ f m := hmax i (List.mem_range.mpr hin)
    rcases lt_or_eq_of_le hle with hlt | heq
    · exact hlt
    · exfalso
      have := htie i (List.mem_range.mpr hin) (le_of_eq heq.symm)
      rw [indexOf_range hmlt, indexOf_range hin] at this
      omega

theorem bestAnchorForBox_spec (anchors : List BoundingBox) (g : BoundingBox)
    (ha : anchors ≠ []) :
    bestAnchorForBox anchors g < anchors.length
    ∧ (∀ i < anchors.length,
        BoundingBox.iou g (anchors.getD i default) ≤
          BoundingBox.iou g (anchors.getD (bestAnchorForBox anchors g) default))
    ∧ ∀ i < bestAnchorForBox anchors g,
        BoundingBox.iou g (anchors.getD i default) <
          BoundingBox.iou g (anchors.getD (bestAnchorForBox anchors g) default) := by
  have hn : anchors.length ≠ 0 := by
    simpa [List.length_eq_zero] using ha
  exact argmaxIdx_spec (fun i => BoundingBox.iou g (anchors.getD i default))
    anchors.length hn

theorem findBestBoxForAnchor_spec (anchors boxes : List BoundingBox) (a : ℕ)
    (hb : boxes ≠ []) :
    findBestBoxForAnchor anchors boxes a < boxes.length
    ∧ (∀ j < boxes.length,
        BoundingBox.iou (boxes.getD j default) (anchors.getD a default) ≤
          BoundingBox.iou (boxes.getD (findBestBoxForAnchor anchors boxes a) default)
            (anchors.getD a default))
    ∧ ∀ j < findBestBoxForAnchor anchors boxes a,
        BoundingBox.iou (boxes.getD j default) (anchors.getD a default) <
          BoundingBox.iou (boxes.getD (findBestBoxForAnchor anchors boxes a) default)
            (anchors.getD a default) := by
  have hn : boxes.length ≠ 0 := by
    simpa [List.length_eq_zero] using hb
  exact argmaxIdx_spec
    (fun j => BoundingBox.iou (boxes.getD j default) (anchors.getD a default))
    boxes.length hn

theorem foldl_step1Upd_length (anchors boxes : List BoundingBox) (js : List ℕ) :
    ∀ init : List (Option ℕ),
      (js.foldl (step1Upd anchors boxes) init).length = init.length := by
  induction js with
  | nil => intro init; rfl
  | cons j js ih =>
    intro init
    rw [List.foldl_cons, ih]
    simp [step1Upd]

theorem step1Assign_length (anchors boxes : List BoundingBox) :
    (step1Assign anchors boxes).length = anchors.length := by
  unfold step1Assign
  rw [foldl_step1Upd_length]
  exact List.length_replicate anchors.length none

theorem getD_set_ne (l : List (Option ℕ)) (i a : ℕ) (v : Option ℕ) (h : i ≠ a) :
    (l.set i v).getD a none = l.getD a none := by
  simp only [List.getD_eq_getElem?_getD, List.getElem?_set_ne h]

theorem getD_set_self (l : List (Option ℕ)) (i : ℕ) (v : Option ℕ) (h : i < l.length) :
    (l.set i v).getD i none = v := by
  simp only [List.getD_eq_getElem?_getD, List.getElem?_set_self h, Option.getD_some]

theorem foldl_step1Upd_getD_frozen (anchors boxes : List BoundingBox) (a : ℕ)
    (js : List ℕ) :
    ∀ init : List (Option ℕ),
      (∀ j ∈ js, bestAnchorForBox anchors (boxes.getD j default) ≠ a) →
      (js.foldl (step1Upd anchors boxes) init).getD a none = init.getD a none := by
  induction js with
  | nil => intro init _; rfl
  | cons j js ih =>
    intro init h
    rw [List.foldl_cons, ih _ (fun j' hj' => h j' (List.mem_cons_of_mem _ hj'))]
    have hne : bestAnchorForBox anchors (boxes.getD j default) ≠ a :=
      h j (List.mem_cons_self _ _)
    exact getD_set_ne init _ a (some j) hne

theorem step1Assign_getD_best (anchors boxes : List BoundingBox) (j : ℕ)
    (ha : anchors ≠ []) (hj : j < boxes.length)
    (hfresh : ∀ j', j < j' → j' < boxes.length →
      bestAnchorForBox anchors (boxes.getD j' default) ≠
        bestAnchorForBox anchors (boxes.getD j default)) :
    (step1Assign anchors boxes).getD
      (bestAnchorForBox anchors (boxes.getD j default)) none = some j := by
  unfold step1Assign
  have hsplit : boxes.length = (j + 1) + (boxes.length - (j + 1)) := by omega
  rw [hsplit, List.range_add, List.foldl_append, List.range_succ, List.foldl_append]
  rw [foldl_step1Upd_getD_frozen]
  · rw [List.foldl_cons, List.foldl_nil]
    have hlen : ((List.range j).foldl (step1Upd anchors boxes)
        (List.replicate anchors.length none)).length = anchors.length := by
      rw [foldl_step1Upd_length]
      exact List.length_replicate anchors.length none
    have hblt : bestAnchorForBox anchors (boxes.getD j default) <
        ((List.range j).foldl (step1Upd anchors boxes)
          (List.replicate anchors.length none)).length := by
      rw [hlen]
      exact (bestAnchorForBox_spec anchors (boxes.getD j default) ha).1
    exact getD_set_self _ _ (some j) hblt
  · intro j' hj'
    obtain ⟨i, hi, rfl⟩ := List.mem_map.mp hj'
    have hiub : i < boxes.length - (j + 1) := List.mem_range.mp hi
    exact hfresh (j + 1 + i) (by omega) (by omega)

theorem matchBoxesWithAnchors_length (anchors boxes : List BoundingBox) (criteria : ℚ) :
    (matchBoxesWithAnchors anchors boxes criteria).length = anchors.length := by
  unfold matchBoxesWithAnchors
  rw [List.length_map, List.length_range]

theorem matchBoxesWithAnchors_getD (anchors boxes : List BoundingBox) (criteria : ℚ)
    (a : ℕ) (ha : a < anchors.length) :
    (matchBoxesWithAnchors anchors boxes criteria).getD a none =
      match (step1Assign anchors boxes).getD a none with
      | some j => some j
      | none =>
        if boxes.isEmpty then none
        else if criteria ≤
            BoundingBox.iou (boxes.getD (findBestBoxForAnchor anchors boxes a) default)
              (anchors.getD a default) then
          some (findBestBoxForAnchor anchors boxes a)
        else none := by
  unfold matchBoxesWithAnchors
  rw [List.getD_eq_getElem?_getD, List.getElem?_map, List.getElem?_range ha]
  rfl

theorem step1Assign_getD_none_of_le (anchors boxes : List BoundingBox) (a : ℕ)
    (h : anchors.length ≤ a) :
    (step1Assign anchors boxes).getD a none = none := by
  rw [List.getD_eq_getElem?_getD, List.getElem?_eq_none]
  · rfl
  · rw [step1Assign_length]
    exact h

theorem matchBoxesWithAnchors_getD_none_of_le (anchors boxes : List BoundingBox)
    (criteria : ℚ) (a : ℕ) (h : anchors.length ≤ a) :
    (matchBoxesWithAnchors anchors boxes criteria).getD a none = none := by
  rw [List.getD_eq_getElem?_getD, List.getElem?_eq_none]
  · rfl
  · rw [matchBoxesWithAnchors_length]
    exact h

theorem getD_replicate {α : Type} (n a : ℕ) (v : α) :
    (List.replicate n v).getD a v = v := by
  rw [List.getD_eq_getElem?_getD, List.getElem?_replicate]
  split <;> rfl

theorem readBoxesFromInput_length (vals : List ℚ) (n : ℕ) :
    (readBoxesFromInput vals n).length = n := by
  unfold readBoxesFromInput
  rw [List.length_map, List.length_range]

theorem readBoxesFromInput_getD (vals : List ℚ) (n k : ℕ) (hk : k < n) :
    (readBoxesFromInput vals n).getD k default =
      ⟨vals.getD (4 * k) 0, vals.getD (4 * k + 1) 0,
       vals.getD (4 * k + 2) 0, vals.getD (4 * k + 3) 0⟩ := by
  unfold readBoxesFromInput
  rw [List.getD_eq_getElem?_getD, List.getElem?_map, List.getElem?_range hk]
  rfl

theorem boxEncoderInit_isSome_iff (c : Flt) (vals : List ℚ) :
    (boxEncoderInit c vals).isSome ↔
      (∃ q, c = Flt.val q ∧ 0 ≤ q ∧ q ≤ 1) ∧ vals.length % 4 = 0 := by
  cases c with
  | nan => simp [boxEncoderInit, fge]
  | val q =>
    by_cases h0 : (0 : ℚ) ≤ q
    · by_cases h1 : q ≤ 1
      · by_cases h4 : vals.length % 4 = 0
        · simp [boxEncoderInit, fge, fle, h0, h1, h4, BoundingBox.kSize]
        · simp [boxEncoderInit, fge, fle, h0, h1, h4, BoundingBox.kSize]
      · simp [boxEncoderInit, fge, fle, h0, h1]
    · simp [boxEncoderInit, fge, fle, h0]

theorem boxEncoderInit_eq_some (c : Flt) (vals : List ℚ) (cfg : EncoderCfg)
    (h : boxEncoderInit c vals = some cfg) :
    cfg.anchors = readBoxesFromInput vals (vals.length / 4) ∧ vals.length % 4 = 0 := by
  cases c with
  | nan => exact absurd h (by simp [boxEncoderInit, fge])
  | val q =>
    unfold boxEncoderInit at h
    split_ifs at h with hg hl h4
    have hcfg : cfg = ⟨q, readBoxesFromInput vals (vals.length / BoundingBox.kSize)⟩ := by
      cases h
      rfl
    rw [hcfg]
    exact ⟨rfl, by simpa [BoundingBox.kSize] using h4⟩

/-- C1 counterexample: with a single anchor and two ground-truth boxes, both
boxes have the same best anchor, step 1 binds it to the later box (index 1),
and ground-truth box 0 is left with no bound anchor — so the claim that after
step 1 every ground-truth box of a non-empty set has at least one bound
anchor is false. -/
theorem c1_coverage_counterexample :
    cexBoxes ≠ [] ∧ coveredAfterStep1 cexAnchors cexBoxes = false
    ∧ step1Assign cexAnchors cexBoxes = [some 1] :=
  ⟨by decide, by with_unfolding_all rfl, by with_unfolding_all rfl⟩

/-- C1 (amended): step 1 binds, for each ground-truth box `g` (processed in
input order), the anchor with the highest IoU against `g` regardless of the
criteria threshold, breaking ties by lowest anchor index; `g` still holds its
binding after step 1 provided no later ground-truth box has the same best
anchor (a later box overwrites the binding of the shared anchor), so coverage
holds whenever the best anchors are pairwise distinct, but not in general. -/
theorem c1_step1_forced_binding (anchors boxes : List BoundingBox) (j : ℕ)
    (ha : anchors ≠ []) (hj : j < boxes.length)
    (hfresh : ∀ j', j < j' → j' < boxes.length →
      bestAnchorForBox anchors (boxes.getD j' default) ≠
        bestAnchorForBox anchors (boxes.getD j default)) :
    bestAnchorForBox anchors (boxes.getD j default) < anchors.length
    ∧ (∀ i < anchors.length,
        BoundingBox.iou (boxes.getD j default) (anchors.getD i default) ≤
          BoundingBox.iou (boxes.getD j default)
            (anchors.getD (bestAnchorForBox anchors (boxes.getD j default)) default))
    ∧ (∀ i < bestAnchorForBox anchors (boxes.getD j default),
        BoundingBox.iou (boxes.getD j default) (anchors.getD i default) <
          BoundingBox.iou (boxes.getD j default)
            (anchors.getD (bestAnchorForBox anchors (boxes.getD j default)) default))
    ∧ (step1Assign anchors boxes).getD
        (bestAnchorForBox anchors (boxes.getD j default)) none = some j := by
  obtain ⟨h1, h2, h3⟩ := bestAnchorForBox_spec anchors (boxes.getD j default) ha
  exact ⟨h1, h2, h3, step1Assign_getD_best anchors boxes j ha hj hfresh⟩

/-- C1 witness: with two anchors and one ground-truth box the theorem yields
the concrete step-1 binding of the box to anchor 0. -/
theorem c1_step1_forced_binding_witness :
    (step1Assign [⟨0, 0, 1, 1⟩, ⟨0, 0, 1/2, 1/2⟩] [⟨0, 0, 1, 1⟩]).getD
      (bestAnchorForBox [⟨0, 0, 1, 1⟩, ⟨0, 0, 1/2, 1/2⟩]
        (List.getD [⟨0, 0, 1, 1⟩] 0 default)) none = some 0 :=
  (c1_step1_forced_binding [⟨0, 0, 1, 1⟩, ⟨0, 0, 1/2, 1/2⟩] [⟨0, 0, 1, 1⟩] 0
    (by decide) (by decide)
    (fun j' h1 h2 => absurd h1 (by simp only [List.length_cons, List.length_nil] at h2; omega))).2.2.2

/-- C2: an anchor bound by step 1 keeps its step-1 binding under the full
matching (step-1 precedence); an anchor left unbound by step 1 is bound to
the ground-truth box with the highest IoU against it exactly when that IoU
meets `criteria`, and stays background otherwise. -/
theorem c2_step3_threshold_binding (anchors boxes : List BoundingBox) (criteria : ℚ)
    (a : ℕ) (ha : a < anchors.length) (hb : boxes ≠ []) :
    (∀ j, (step1Assign anchors boxes).getD a none = some j →
        (matchBoxesWithAnchors anchors boxes criteria).getD a none = some j)
    ∧ ((step1Assign anchors boxes).getD a none = none →
        findBestBoxForAnchor anchors boxes a < boxes.length
        ∧ (∀ j < boxes.length,
            BoundingBox.iou (boxes.getD j default) (anchors.getD a default) ≤
              BoundingBox.iou
                (boxes.getD (findBestBoxForAnchor anchors boxes a) default)
                (anchors.getD a default))
        ∧ (matchBoxesWithAnchors anchors boxes criteria).getD a none =
            (if criteria ≤
                BoundingBox.iou
                  (boxes.getD (findBestBoxForAnchor anchors boxes a) default)
                  (anchors.getD a default) then
              some (findBestBoxForAnchor anchors boxes a)
            else none)) := by
  constructor
  · intro j hs1
    rw [matchBoxesWithAnchors_getD anchors boxes criteria a ha, hs1]
  · intro hs1
    obtain ⟨hlt, hmax, _⟩ := findBestBoxForAnchor_spec anchors boxes a hb
    refine ⟨hlt, hmax, ?_⟩
    rw [matchBoxesWithAnchors_getD anchors boxes criteria a ha, hs1]
    have hemp : boxes.isEmpty = false := by
      cases boxes with
      | nil => exact absurd rfl hb
      | cons x xs => rfl
    show (if boxes.isEmpty then none
      else if criteria ≤
          BoundingBox.iou (boxes.getD (findBestBoxForAnchor anchors boxes a) default)
            (anchors.getD a default) then
        some (findBestBoxForAnchor anchors boxes a)
      else none) = _
    rw [hemp]
    simp

/-- C2 witness: anchor 0 is step-1 bound to box 0 and the full matching keeps
that binding even with a high threshold. -/
theorem c2_step3_threshold_binding_witness :
    (matchBoxesWithAnchors [⟨0, 0, 1, 1⟩, ⟨0, 0, 1/2, 1/2⟩] [⟨0, 0, 1, 1⟩]
      (9/10)).getD 0 none = some 0 :=
  (c2_step3_threshold_binding [⟨0, 0, 1, 1⟩, ⟨0, 0, 1/2, 1/2⟩] [⟨0, 0, 1, 1⟩]
    (9/10) 0 (by decide) (by decide)).1 0 (by with_unfolding_all rfl)

/-- C3: IoU is intersection over `areaA + areaB - intersection`, is 0 when
that union is 0, the intersection is the clamped per-axis overlap product and
vanishes when either axis overlap is non-positive, and the result lies in
[0, 1]. -/
theorem c3_iou_spec (x y : BoundingBox) :
    BoundingBox.iou x y =
      (if x.area + y.area - BoundingBox.interArea x y = 0 then 0
       else BoundingBox.interArea x y / (x.area + y.area - BoundingBox.interArea x y))
    ∧ ((min x.r y.r - max x.l y.l ≤ 0 ∨ min x.b y.b - max x.t y.t ≤ 0) →
        BoundingBox.interArea x y = 0)
    ∧ 0 ≤ BoundingBox.iou x y ∧ BoundingBox.iou x y ≤ 1 := by
  refine ⟨rfl, ?_, iou_nonneg x y, iou_le_one x y⟩
  intro h
  unfold BoundingBox.interArea
  dsimp only
  rw [if_pos h]

/-- C3 witness: two disjoint unit-height boxes have intersection 0 and an IoU
within the bounds. -/
theorem c3_iou_spec_witness :
    BoundingBox.interArea ⟨0, 0, 1, 1⟩ ⟨2, 0, 3, 1⟩ = 0
    ∧ 0 ≤ BoundingBox.iou ⟨0, 0, 1, 1⟩ ⟨2, 0, 3, 1⟩ :=
  ⟨(c3_iou_spec ⟨0, 0, 1, 1⟩ ⟨2, 0, 3, 1⟩).2.1 (Or.inl (by norm_num)),
   (c3_iou_spec ⟨0, 0, 1, 1⟩ ⟨2, 0, 3, 1⟩).2.2.1⟩

/-- C4: in the encoded output, an unmatched anchor slot carries label 0 and
the anchor's own coordinates, and a matched anchor slot carries the bound
ground-truth box's label and its raw coordinates. -/
theorem c4_encoder_output_slots (anchors boxes : List BoundingBox) (labels : List ℤ)
    (criteria : ℚ) (a : ℕ) (ha : a < anchors.length) :
    (runEncoder anchors criteria boxes labels).1.getD a default =
      (match (matchBoxesWithAnchors anchors boxes criteria).getD a none with
       | some j => boxes.getD j default
       | none => anchors.getD a default)
    ∧ (runEncoder anchors criteria boxes labels).2.getD a 0 =
      (match (matchBoxesWithAnchors anchors boxes criteria).getD a none with
       | some j => labels.getD j 0
       | none => (0 : ℤ)) := by
  unfold runEncoder
  by_cases hemp : boxes.isEmpty
  · rw [if_pos hemp]
    obtain rfl : boxes = [] := List.isEmpty_iff.mp hemp
    have hm : (matchBoxesWithAnchors anchors [] criteria).getD a none = none := by
      rw [matchBoxesWithAnchors_getD anchors [] criteria a ha]
      have hs1 : (step1Assign anchors []).getD a none = none :=
        getD_replicate anchors.length a none
      rw [hs1]
      rfl
    rw [hm]
    exact ⟨rfl, getD_replicate anchors.length a 0⟩
  · rw [if_neg hemp]
    unfold writeMatchesToOutput
    constructor <;>
      (rw [List.getD_eq_getElem?_getD, List.getElem?_map, List.getElem?_range ha]; rfl)

/-- C4 witness: a single matched anchor yields the ground-truth label slot of
its bound box. -/
theorem c4_encoder_output_slots_witness :
    (runEncoder [⟨0, 0, 1, 1⟩] (1/2) [⟨0, 0, 1, 1⟩] [3]).2.getD 0 0 =
      (match (matchBoxesWithAnchors [⟨0, 0, 1, 1⟩] [⟨0, 0, 1, 1⟩] (1/2)).getD 0 none with
       | some j => List.getD [(3 : ℤ)] j 0
       | none => (0 : ℤ)) :=
  (c4_encoder_output_slots [⟨0, 0, 1, 1⟩] [⟨0, 0, 1, 1⟩] [3] (1/2) 0 (by decide)).2

/-- C6: both output sequences always have exactly the anchor count as length,
for any ground-truth count including zero, and an empty ground-truth set
yields the all-background output: each slot holds the anchor's own
coordinates and label 0. -/
theorem c6_output_shape (anchors boxes : List BoundingBox) (labels : List ℤ)
    (criteria : ℚ) :
    (runEncoder anchors criteria boxes labels).1.length = anchors.length
    ∧ (runEncoder anchors criteria boxes labels).2.length = anchors.length
    ∧ (boxes = [] →
        (runEncoder anchors criteria boxes labels).1 = anchors
        ∧ (runEncoder anchors criteria boxes labels).2 =
            List.replicate anchors.length 0) := by
  unfold runEncoder
  by_cases hemp : boxes.isEmpty
  · rw [if_pos hemp]
    exact ⟨rfl, List.length_replicate anchors.length 0, fun _ => ⟨rfl, rfl⟩⟩
  · rw [if_neg hemp]
    refine ⟨?_, ?_, fun hb => absurd (by rw [hb]; rfl) hemp⟩ <;>
      (unfold writeMatchesToOutput; rw [List.length_map, List.length_range])

/-- C6 witness: with two anchors and no ground-truth boxes the output is the
anchors themselves with background labels. -/
theorem c6_output_shape_witness :
    (runEncoder [⟨0, 0, 1, 1⟩, ⟨0, 0, 1/2, 1/2⟩] (1/2) [] []).1 =
      [⟨0, 0, 1, 1⟩, ⟨0, 0, 1/2, 1/2⟩]
    ∧ (runEncoder [⟨0, 0, 1, 1⟩, ⟨0, 0, 1/2, 1/2⟩] (1/2) [] []).2 =
        List.replicate (List.length
          ([⟨0, 0, 1, 1⟩, ⟨0, 0, 1/2, 1/2⟩] : List BoundingBox)) 0 :=
  (c6_output_shape ([⟨0, 0, 1, 1⟩, ⟨0, 0, 1/2, 1/2⟩] : List BoundingBox)
    ([] : List BoundingBox) ([] : List ℤ) (1/2)).2.2 rfl

/-- C7: with the same anchors and ground-truth boxes and thresholds
`c1 ≤ c2`, every step-1 binding is present in the matching at both
thresholds, and every match produced at the higher threshold `c2` is also
produced at `c1` — raising `criteria` only removes matches. -/
theorem c7_threshold_monotonicity (anchors boxes : List BoundingBox) (c1 c2 : ℚ)
    (hc : c1 ≤ c2) (a j : ℕ) :
    ((step1Assign anchors boxes).getD a none = some j →
        (matchBoxesWithAnchors anchors boxes c1).getD a none = some j
        ∧ (matchBoxesWithAnchors anchors boxes c2).getD a none = some j)
    ∧ ((matchBoxesWithAnchors anchors boxes c2).getD a none = some j →
        (matchBoxesWithAnchors anchors boxes c1).getD a none = some j) := by
  by_cases ha : a < anchors.length
  · constructor
    · intro hs1
      constructor <;> (rw [matchBoxesWithAnchors_getD _ _ _ a ha, hs1])
    · intro h2
      rw [matchBoxesWithAnchors_getD _ _ _ a ha] at h2
      rw [matchBoxesWithAnchors_getD _ _ _ a ha]
      cases hs1 : (step1Assign anchors boxes).getD a none with
      | some j' => rw [hs1] at h2; exact h2
      | none =>
        rw [hs1] at h2
        replace h2 : (if boxes.isEmpty then none
            else if c2 ≤
                BoundingBox.iou
                  (boxes.getD (findBestBoxForAnchor anchors boxes a) default)
                  (anchors.getD a default) then
              some (findBestBoxForAnchor anchors boxes a)
            else none) = some j := h2
        show (if boxes.isEmpty then none
            else if c1 ≤
                BoundingBox.iou
                  (boxes.getD (findBestBoxForAnchor anchors boxes a) default)
                  (anchors.getD a default) then
              some (findBestBoxForAnchor anchors boxes a)
            else none) = some j
        by_cases hemp : boxes.isEmpty
        · rw [if_pos hemp] at h2
          exact absurd h2 (by simp)
        · rw [if_neg hemp] at h2
          rw [if_neg hemp]
          by_cases hle : c2 ≤
              BoundingBox.iou
                (boxes.getD (findBestBoxForAnchor anchors boxes a) default)
                (anchors.getD a default)
          · rw [if_pos hle] at h2
            rw [if_pos (le_trans hc hle)]
            exact h2
          · rw [if_neg hle] at h2
            exact absurd h2 (by simp)
  · have hs1 := step1Assign_getD_none_of_le anchors boxes a (le_of_not_lt ha)
    have hm2 := matchBoxesWithAnchors_getD_none_of_le anchors boxes c2 a
      (le_of_not_lt ha)
    constructor
    · intro h
      rw [hs1] at h
      exact absurd h (by simp)
    · intro h
      rw [hm2] at h
      exact absurd h (by simp)

/-- C7 witness: a step-1 binding survives at thresholds 1/2 and 3/4 alike. -/
theorem c7_threshold_monotonicity_witness :
    (matchBoxesWithAnchors [⟨0, 0, 1, 1⟩] [⟨0, 0, 1, 1⟩] (1/2)).getD 0 none = some 0
    ∧ (matchBoxesWithAnchors [⟨0, 0, 1, 1⟩] [⟨0, 0, 1, 1⟩] (3/4)).getD 0 none = some 0 :=
  (c7_threshold_monotonicity [⟨0, 0, 1, 1⟩] [⟨0, 0, 1, 1⟩] (1/2) (3/4)
    (by norm_num) 0 0).1 (by with_unfolding_all rfl)

/-- C5: construction succeeds exactly when the criteria threshold is an
actual value in [0, 1] and the flat anchor list length is a multiple of 4;
on success the anchors are one box per 4 consecutive values, in input
order. -/
theorem c5_constructor_validation (c : Flt) (vals : List ℚ) :
    ((boxEncoderInit c vals).isSome ↔
      (∃ q, c = Flt.val q ∧ 0 ≤ q ∧ q ≤ 1) ∧ vals.length % 4 = 0)
    ∧ ∀ cfg, boxEncoderInit c vals = some cfg →
        cfg.anchors.length = vals.length / 4
        ∧ ∀ k < vals.length / 4,
            cfg.anchors.getD k default =
              ⟨vals.getD (4 * k) 0, vals.getD (4 * k + 1) 0,
               vals.getD (4 * k + 2) 0, vals.getD (4 * k + 3) 0⟩ := by
  refine ⟨boxEncoderInit_isSome_iff c vals, fun cfg h => ?_⟩
  obtain ⟨hanch, _⟩ := boxEncoderInit_eq_some c vals cfg h
  rw [hanch]
  exact ⟨readBoxesFromInput_length vals (vals.length / 4),
    fun k hk => readBoxesFromInput_getD vals (vals.length / 4) k hk⟩

/-- C5 witness: criteria 1/2 with a 4-element anchor list is accepted, and
the resulting single anchor is read from the 4 consecutive values. -/
theorem c5_constructor_validation_witness :
    (boxEncoderInit (Flt.val (1/2)) [0, 0, 1, 1]).isSome = true
    ∧ (EncoderCfg.mk (1/2) [⟨0, 0, 1, 1⟩]).anchors.length =
        List.length [(0 : ℚ), 0, 1, 1] / 4 :=
  ⟨(c5_constructor_validation (Flt.val (1/2)) [0, 0, 1, 1]).1.mpr
      ⟨⟨1/2, rfl, by norm_num, by norm_num⟩, by decide⟩,
   ((c5_constructor_validation (Flt.val (1/2)) [0, 0, 1, 1]).2
      ⟨1/2, [⟨0, 0, 1, 1⟩]⟩ (by with_unfolding_all rfl)).1⟩

/-- C8: the per-sample computation is a pure function: identical anchors,
criteria, ground-truth boxes and labels give the identical assignment and
identical encoded output. -/
theorem c8_deterministic (anchors anchors' boxes boxes' : List BoundingBox)
    (labels labels' : List ℤ) (c c' : ℚ)
    (h1 : anchors = anchors') (h2 : boxes = boxes') (h3 : labels = labels')
    (h4 : c = c') :
    matchBoxesWithAnchors anchors boxes c = matchBoxesWithAnchors anchors' boxes' c'
    ∧ runEncoder anchors c boxes labels = runEncoder anchors' c' boxes' labels' := by
  subst h1
  subst h2
  subst h3
  subst h4
  exact ⟨rfl, rfl⟩

/-- C8 witness: two runs on one concrete input coincide. -/
theorem c8_deterministic_witness :
    runEncoder [⟨0, 0, 1, 1⟩] (1/2) [⟨0, 0, 1, 1⟩] [3] =
      runEncoder [⟨0, 0, 1, 1⟩] (1/2) [⟨0, 0, 1, 1⟩] [3] :=
  (c8_deterministic [⟨0, 0, 1, 1⟩] [⟨0, 0, 1, 1⟩] [⟨0, 0, 1, 1⟩] [⟨0, 0, 1, 1⟩]
    [3] [3] (1/2) (1/2) rfl rfl rfl rfl).2

/-- C9: a NaN criteria fails construction — the check `criteria >= 0`
evaluates to false on NaN — and construction succeeds only for an actual
value in [0, 1]. -/
theorem c9_nan_rejected :
    (∀ vals : List ℚ, boxEncoderInit Flt.nan vals = none)
    ∧ fge Flt.nan (Flt.val 0) = false
    ∧ ∀ (c : Flt) (vals : List ℚ) (cfg : EncoderCfg),
        boxEncoderInit c vals = some cfg → ∃ q, c = Flt.val q ∧ 0 ≤ q ∧ q ≤ 1 := by
  refine ⟨fun vals => rfl, rfl, fun c vals cfg h => ?_⟩
  have hs : (boxEncoderInit c vals).isSome := by
    rw [h]
    rfl
  exact ((boxEncoderInit_isSome_iff c vals).mp hs).1

/-- C9 witness: NaN criteria is rejected on a well-formed anchor list, and
the failing check is the `>= 0` comparison. -/
theorem c9_nan_rejected_witness :
    boxEncoderInit Flt.nan [0, 0, 1, 1] = none
    ∧ fge Flt.nan (Flt.val 0) = false :=
  ⟨c9_nan_rejected.1 [0, 0, 1, 1], c9_nan_rejected.2.1⟩

/-- C10: an empty anchor list passes construction (0 is a multiple of 4) with
zero anchors, and every run with zero anchors produces empty outputs no
matter the ground-truth input. -/
theorem c10_empty_anchors (c : ℚ) (h0 : 0 ≤ c) (h1 : c ≤ 1)
    (boxes : List BoundingBox) (labels : List ℤ) :
    boxEncoderInit (Flt.val c) [] = some ⟨c, []⟩
    ∧ runEncoder [] c boxes labels = ([], []) := by
  constructor
  · unfold boxEncoderInit
    have hg : fge (Flt.val c) (Flt.val 0) = true := by
      simp [fge, h0]
    have hl : fle (Flt.val c) (Flt.val 1) = true := by
      simp [fle, h1]
    rw [hg, hl]
    simp [BoundingBox.kSize, readBoxesFromInput]
  · cases boxes with
    | nil => rfl
    | cons x xs => rfl

/-- C10 witness: criteria 0 with no anchors constructs, and a run with a
ground-truth box still yields empty outputs. -/
theorem c10_empty_anchors_witness :
    boxEncoderInit (Flt.val 0) [] = some ⟨0, []⟩
    ∧ runEncoder [] 0 [⟨0, 0, 1, 1⟩] [7] = ([], []) :=
  ⟨(c10_empty_anchors 0 le_rfl zero_le_one [⟨0, 0, 1, 1⟩] [7]).1,
   (c10_empty_anchors 0 le_rfl zero_le_one [⟨0, 0, 1, 1⟩] [7]).2⟩

end DaliBoxEncoder
